import Mathlib

/-!
Verification of the wagering and settlement engine of `economy_bot.py`.

Each definition is a shallow embedding of the corresponding Python function,
keeping the source's names where Lean allows it.  Monetary values are
integers (`Int` for wallet balances, which the source never clamps, `Nat`
for bet amounts which are validated positive).  Randomness (the drawn
pocket, the shuffled deck, the scripted opponent's decision) is passed in
as an explicit parameter, as the functions are deterministic in the drawn
values.  Python's in-place dictionary registries are modelled as
association lists; Python's `deck.pop()` draws from the back of the list,
which we model as drawing from the front of the list of upcoming draws.
-/

namespace EconomyBot

/-! ### Configuration constants (economy_bot.py, CONFIG section) -/

def MIN_BET : Nat := 10
def MAX_BET : Nat := 100000
def STRAIGHT_UP_RETURN_MULT : Nat := 36
def COLOR_RETURN_MULT : Nat := 3
def ROULETTE_LOSS_FEE_PCT : Nat := 5
def BJ_DEALER_STANDS_SOFT_17 : Bool := true
def BJ_ALLOW_DOUBLE : Bool := true
def BJ_ALLOW_SURRENDER : Bool := true
def BJ_WIN_RETURN_MULT_NUM : Nat := 2
def BJ_WIN_RETURN_MULT_DEN : Nat := 1
def BJ_PUSH_RETURN_MULT_NUM : Nat := 1
def BJ_PUSH_RETURN_MULT_DEN : Nat := 1
def BJ_NATURAL_PROFIT_NUM : Nat := 3
def BJ_NATURAL_PROFIT_DEN : Nat := 2
def LOAN_MAX_PRINCIPAL : Nat := 100000
def LOAN_DAILY_INTEREST_PCT : Nat := 25
def LOAN_ORIGINATION_FEE_PCT : Nat := 10

/-- Error taxonomy of the rejection paths (each is an early `return` with an
ephemeral message in the source; no state is mutated on these paths). -/
inductive OpError where
  | validation
  | insufficientFunds
  | invalidSession
  | invalidMove
deriving DecidableEq, Repr

/-! ### Roulette helpers (`RED_NUMBERS`, `pocket_color`, `loss_fee`) -/

/-- The red pockets of the American layout, as listed in `RED_NUMBERS`. -/
def RED_NUMBERS : List Nat :=
  [1, 3, 5, 7, 9, 12, 14, 16, 18, 19, 21, 23, 25, 27, 30, 32, 34, 36]

/-- A pocket is `"00"` or an integer 0‥36 (`Pocket = Union[int, str]`). -/
inductive Pocket where
  | zz
  | n (k : Nat)
deriving DecidableEq, Repr

/-- `pocket_color`: `"00"` and `0` are green, `RED_NUMBERS` are red, the
rest are black. -/
def pocket_color : Pocket → String
  | .zz => "green"
  | .n k => if k = 0 then "green" else if k ∈ RED_NUMBERS then "red" else "black"

/-- `loss_fee(bet)`: `bet * ROULETTE_LOSS_FEE_PCT // 100` (0 if the fee
percentage is not positive). -/
def loss_fee (bet : Nat) : Nat :=
  if ROULETTE_LOSS_FEE_PCT = 0 then 0 else bet * ROULETTE_LOSS_FEE_PCT / 100

/-- Result of a settled roulette spin: final wallet, gross payout, loss fee
charged, and net (`payout - bet - fee`). -/
structure RouletteOutcome where
  newWallet : Int
  payout : Nat
  fee : Nat
  net : Int
deriving DecidableEq, Repr

/-- `roulette_color`: validate the bet bounds, reject if `bet > wallet`,
debit the bet, then pay `bet * COLOR_RETURN_MULT` on a color match and
charge `loss_fee bet` when the payout is zero.  The drawn pocket `roll` is
the explicit RNG input. -/
def roulette_color (wallet : Int) (bet : Nat) (choice : String) (roll : Pocket) :
    Except OpError RouletteOutcome :=
  if bet < MIN_BET ∨ MAX_BET < bet then .error .validation
  else if wallet < (bet : Int) then .error .insufficientFunds
  else
    let rolled_color := pocket_color roll
    let payout : Nat := if rolled_color = choice then bet * COLOR_RETURN_MULT else 0
    let fee : Nat := if payout = 0 then loss_fee bet else 0
    .ok ⟨wallet - bet - fee + payout, payout, fee, (payout : Int) - bet - fee⟩

/-- `roulette_number`: same flow with an exact pocket wager paying
`bet * STRAIGHT_UP_RETURN_MULT`. -/
def roulette_number (wallet : Int) (bet : Nat) (chosen : Pocket) (roll : Pocket) :
    Except OpError RouletteOutcome :=
  if bet < MIN_BET ∨ MAX_BET < bet then .error .validation
  else if wallet < (bet : Int) then .error .insufficientFunds
  else
    let payout : Nat := if roll = chosen then bet * STRAIGHT_UP_RETURN_MULT else 0
    let fee : Nat := if payout = 0 then loss_fee bet else 0
    .ok ⟨wallet - bet - fee + payout, payout, fee, (payout : Int) - bet - fee⟩

/-! ### Loans (`accrue_loan`) -/

/-- A row of the `loans` table. -/
structure Loan where
  principal : Nat
  balance : Nat
  daily_interest_pct : Nat
  origination_fee_pct : Nat
  opened_at : Int
  last_accrual : Int
deriving DecidableEq, Repr

/-- One day of compounding: `balance += balance * rate_pct // 100`. -/
def accrue_step (rate_pct : Nat) (balance : Nat) : Nat :=
  balance + balance * rate_pct / 100

/-- `accrue_loan`: no-op when nothing is owed; otherwise fall back from
`last_accrual` to `opened_at` to `now`, compute the floored whole days
elapsed (`max(0, (now - last) // 86400)`), compound once per day, and
advance `last_accrual` by exactly `days * 86400`. -/
def accrue_loan (row : Loan) (now : Int) : Loan :=
  if row.balance = 0 then row
  else
    let l1 : Int := if row.last_accrual ≤ 0 then row.opened_at else row.last_accrual
    let last : Int := if l1 ≤ 0 then now else l1
    let days : Nat := (max 0 ((now - last).fdiv (24 * 60 * 60))).toNat
    if days = 0 then row
    else { row with
            balance := (accrue_step row.daily_interest_pct)^[days] row.balance,
            last_accrual := last + (days : Int) * (24 * 60 * 60) }

/-! ### Admin confiscation (`admin_take`) -/

/-- The per-user columns touched by the modelled operations (a
representative subset of the `guild_users` row). -/
structure Account where
  wallet : Int
  last_daily : Int
  daily_streak : Nat
  plays : Nat
  profit : Int
deriving DecidableEq, Repr

/-- `admin_take`: reject non-positive amounts, then debit
`take = min(amount, wallet)` — the clamp replaces any insufficient-funds
rejection, and only the wallet column is updated. -/
def admin_take (acct : Account) (amount : Int) : Except OpError Account :=
  if amount ≤ 0 then .error .validation
  else
    let take := min amount acct.wallet
    .ok { acct with wallet := acct.wallet - take }

/-! ### Cards

The source represents a card as a string `rank ++ suit` (e.g. `"A♠"`) and
extracts the rank with `c[:-1]` and the suit with `c[-1]`.  We model a card
as a pair of a rank and a suit index. -/

/-- The thirteen ranks (`RANKS = ["A"] + ["2"..."10"] + ["J","Q","K"]`). -/
inductive Rank where
  | rA | r2 | r3 | r4 | r5 | r6 | r7 | r8 | r9 | r10 | rJ | rQ | rK
deriving DecidableEq, Repr

/-- A card: rank and suit (the four suit symbols, as an index). -/
abbrev Card : Type := Rank × Nat

/-- `card_value(rank)`: J/Q/K are 10, an ace is 11, pips are face value. -/
def card_value : Rank → Nat
  | .rJ | .rQ | .rK => 10
  | .rA => 11
  | .r2 => 2 | .r3 => 3 | .r4 => 4 | .r5 => 5 | .r6 => 6
  | .r7 => 7 | .r8 => 8 | .r9 => 9 | .r10 => 10

/-- The ace-reduction loop of `hand_value`: while the total is over 21 and
an ace is still counted as 11, subtract 10. -/
def reduce_aces : Nat → Nat → Nat
  | total, 0 => total
  | total, aces + 1 => if 21 < total then reduce_aces (total - 10) aces else total

/-- `hand_value(cards)`: sum of `card_value` over the ranks, with aces
reduced from 11 to 1 while the hand would bust. -/
def hand_value (cards : List Card) : Nat :=
  reduce_aces ((cards.map (fun c => card_value c.1)).sum)
    ((cards.filter (fun c => c.1 = Rank.rA)).length)

/-- `is_soft(cards)`: the hand contains an ace and counting one ace as 11
(all others, and every card, at their minimum) does not bust.  The source
computes `min_total` with aces as 1 and tests `min_total + 10 <= 21`. -/
def is_soft (cards : List Card) : Bool :=
  (cards.any (fun c => c.1 = Rank.rA)) &&
    ((cards.map (fun c => if c.1 = Rank.rA then 1 else card_value c.1)).sum + 10 ≤ 21)

/-- `is_natural_blackjack(cards)`: exactly two cards totalling 21. -/
def is_natural_blackjack (cards : List Card) : Bool :=
  cards.length = 2 && hand_value cards = 21

/-- `frac_mult(amount, num, den) = amount * num // den`. -/
def frac_mult (amount num den : Nat) : Nat := amount * num / den

/-- The `BJGame` dataclass. -/
structure BJGame where
  bet : Nat
  deck : List Card
  player : List Card
  dealer : List Card
  done : Bool
  doubled : Bool
deriving DecidableEq, Repr

/-- The dealer-draw condition of `_dealer_and_resolve`: draw while the
total is below 17, and also on a soft 17 when the dealer is configured to
hit soft 17 (`stands_soft_17 = False`). -/
def dealer_should_draw (stands_soft_17 : Bool) (dealer : List Card) : Bool :=
  hand_value dealer < 17 ||
    (hand_value dealer = 17 && !stands_soft_17 && is_soft dealer)

/-- The dealer loop of `_dealer_and_resolve`: repeatedly draw from the deck
while `dealer_should_draw` holds.  `none` models the `IndexError` the
source would raise on an exhausted shoe (unreachable with a real deck). -/
def dealer_play (stands_soft_17 : Bool) : List Card → List Card → Option (List Card × List Card)
  | [], dealer =>
    if dealer_should_draw stands_soft_17 dealer then none else some (dealer, [])
  | c :: deck, dealer =>
    if dealer_should_draw stands_soft_17 dealer then
      dealer_play stands_soft_17 deck (dealer ++ [c])
    else some (dealer, c :: deck)

/-- The final comparison of `_dealer_and_resolve`: dealer bust or higher
player total pays `frac_mult bet 2 1`; equal totals push (return the bet);
otherwise the full recorded stake is lost.  Returns
(outcome, payout, net). -/
def bj_resolve (bet pv dv : Nat) : String × Nat × Int :=
  if 21 < dv ∨ dv < pv then
    (("win", frac_mult bet BJ_WIN_RETURN_MULT_NUM BJ_WIN_RETURN_MULT_DEN,
      (frac_mult bet BJ_WIN_RETURN_MULT_NUM BJ_WIN_RETURN_MULT_DEN : Int) - bet))
  else if pv = dv then
    (("push", frac_mult bet BJ_PUSH_RETURN_MULT_NUM BJ_PUSH_RETURN_MULT_DEN,
      (frac_mult bet BJ_PUSH_RETURN_MULT_NUM BJ_PUSH_RETURN_MULT_DEN : Int) - bet))
  else ("loss", 0, -(bet : Int))

/-- Remove the entry with key `k` from an association list (models
`dict.pop(k, None)`). -/
def removeKey {α β : Type} [BEq α] (k : α) (l : List (α × β)) : List (α × β) :=
  l.filter (fun p => !(p.1 == k))

/-- The registry of in-progress blackjack games, keyed by
(guild_id, user_id) as in `BJ_GAMES`. -/
def BJRegistry : Type := List ((Nat × Nat) × BJGame)

/-- Outcome of a registry-level blackjack move. -/
inductive BJStandResult where
  | rejected (e : OpError)
  | deckExhausted
  | settled (games : List ((Nat × Nat) × BJGame)) (wallet : Int)
      (outcome : String) (payout : Nat) (net : Int)
deriving DecidableEq, Repr

/-- The Stand button: look the session up (reply-and-return if absent or
finished), run the dealer loop, settle by `bj_resolve`, credit the payout
and remove the session (`_finish` pops `BJ_GAMES`). -/
def bj_stand (games : List ((Nat × Nat) × BJGame)) (key : Nat × Nat) (wallet : Int) :
    BJStandResult :=
  match games.lookup key with
  | none => .rejected .invalidSession
  | some g =>
    if g.done then .rejected .invalidSession
    else
      match dealer_play BJ_DEALER_STANDS_SOFT_17 g.deck g.dealer with
      | none => .deckExhausted
      | some (dealerFinal, _) =>
        let r := bj_resolve g.bet (hand_value g.player) (hand_value dealerFinal)
        .settled (removeKey key games) (wallet + r.2.1) r.1 r.2.1 r.2.2

/-- Outcome of the Surrender button. -/
inductive BJSurrenderResult where
  | rejected (e : OpError)
  | settled (games : List ((Nat × Nat) × BJGame)) (wallet : Int) (payout : Nat) (net : Int)
deriving DecidableEq, Repr

/-- The Surrender button: allowed only while the hand is exactly two cards
and not doubled; pays back `bet // 2` and ends the session. -/
def bj_surrender (games : List ((Nat × Nat) × BJGame)) (key : Nat × Nat) (wallet : Int) :
    BJSurrenderResult :=
  if BJ_ALLOW_SURRENDER = false then .rejected .validation
  else
    match games.lookup key with
    | none => .rejected .invalidSession
    | some g =>
      if g.done then .rejected .invalidSession
      else if g.player.length ≠ 2 ∨ g.doubled then .rejected .invalidMove
      else
        let payout := g.bet / 2
        .settled (removeKey key games) (wallet + payout) payout ((payout : Int) - g.bet)

/-- Result of the post-deal natural check in the `blackjack` command. -/
inductive BJStartResult where
  | settled (outcome : String) (payout : Nat) (net : Int)
  | ongoing (g : BJGame)
deriving DecidableEq, Repr

/-- The immediate natural check of the `blackjack` command: a two-card 21
resolves instantly — push returning the bet when the dealer also has a
natural, otherwise a win paying `bet + bet * 3 // 2`; only a non-natural
hand stores an ongoing session. -/
def blackjack_natural_check (bet : Nat) (deck player dealer : List Card) : BJStartResult :=
  if is_natural_blackjack player then
    if is_natural_blackjack dealer then .settled "push" bet ((bet : Int) - bet)
    else
      let profit := bet * BJ_NATURAL_PROFIT_NUM / BJ_NATURAL_PROFIT_DEN
      .settled "win" (bet + profit) (((bet + profit : Nat) : Int) - bet)
  else .ongoing ⟨bet, deck, player, dealer, false, false⟩

/-! ### Poker hand evaluation (`RANK_ORDER`, `poker_score_5`, `poker_best_7`) -/

/-- `RANK_ORDER`: ranks 2‥10 at face value, J=11, Q=12, K=13, A=14. -/
def RANK_ORDER : Rank → Nat
  | .r2 => 2 | .r3 => 3 | .r4 => 4 | .r5 => 5 | .r6 => 6 | .r7 => 7
  | .r8 => 8 | .r9 => 9 | .r10 => 10 | .rJ => 11 | .rQ => 12 | .rK => 13
  | .rA => 14

/-- The rank values of a hand, in input order. -/
def rankVals (cards : List Card) : List Nat := cards.map (fun c => RANK_ORDER c.1)

/-- `vals = sorted(..., reverse=True)`: rank values in descending order. -/
def valsOf (cards : List Card) : List Nat :=
  List.insertionSort (fun a b => b ≤ a) (rankVals cards)

/-- The suits of a hand. -/
def suitsOf (cards : List Card) : List Nat := cards.map (fun c => c.2)

/-- The `(value, count)` pairs of the `counts` dictionary (one per distinct
value). -/
def pairsOf (cards : List Card) : List (Nat × Nat) :=
  (valsOf cards).dedup.map (fun v => (v, (valsOf cards).count v))

/-- The descending sort key of `groups`: compare `(count, value)`
lexicographically (`sorted(counts.items(), key=(x[1], x[0]),
reverse=True)`). -/
def grpGE (p q : Nat × Nat) : Prop := q.2 < p.2 ∨ (p.2 = q.2 ∧ q.1 ≤ p.1)

instance : DecidableRel grpGE := fun p q => by
  unfold grpGE; exact inferInstance

instance : IsTotal (Nat × Nat) grpGE :=
  ⟨by intro p q; unfold grpGE; omega⟩

instance : IsTrans (Nat × Nat) grpGE :=
  ⟨by intro p q r; unfold grpGE; omega⟩

instance : IsTotal Nat (fun a b => b ≤ a) :=
  ⟨fun a b => le_total b a⟩

instance : IsTrans Nat (fun a b => b ≤ a) :=
  ⟨fun _ _ _ h1 h2 => le_trans h2 h1⟩

/-- `groups`: the count table sorted descending by `(count, value)`. -/
def groupsOf (cards : List Card) : List (Nat × Nat) :=
  List.insertionSort grpGE (pairsOf cards)

/-- `groups[0]` (the hand is nonempty, so the default is never used). -/
def g0Of (cards : List Card) : Nat × Nat := (groupsOf cards).headI

/-- `groups[1]` (guarded by `len(groups) > 1` in the source). -/
def g1Of (cards : List Card) : Nat × Nat := ((groupsOf cards).drop 1).headI

/-- `unique = sorted(set(vals), reverse=True)`. -/
def uniqueOf (cards : List Card) : List Nat :=
  List.insertionSort (fun a b => b ≤ a) (valsOf cards).dedup

/-- `is_flush = len(set(suits)) == 1`. -/
def isFlushOf (cards : List Card) : Prop := (suitsOf cards).dedup.length = 1

instance (cards : List Card) : Decidable (isFlushOf cards) := by
  unfold isFlushOf; exact inferInstance

/-- The sliding-window straight search over the descending `unique` list:
the first window of five whose ends differ by 4 yields its top value. -/
def straight_window : List Nat → Option Nat
  | a :: b :: c :: d :: e :: rest =>
    if (a : Int) - (e : Int) = 4 then some a
    else straight_window (b :: c :: d :: e :: rest)
  | _ => none

/-- The straight detection of `poker_score_5`: with at least five distinct
values, either a consecutive window or the wheel `{14,5,4,3,2}` (top value
5). -/
def straightTopOf (cards : List Card) : Option Nat :=
  if 5 ≤ (uniqueOf cards).length then
    match straight_window (uniqueOf cards) with
    | some t => some t
    | none =>
      if ([14, 5, 4, 3, 2] : List Nat).all (fun v => (valsOf cards).contains v) then some 5
      else none
  else none

/-- `max(...)` over a list of values (the source only applies it to
nonempty generators). -/
def listMax (l : List Nat) : Nat := l.foldr max 0

/-- `min(...)` over a nonempty list of values. -/
def listMin : List Nat → Nat
  | [] => 0
  | a :: t => t.foldr min a

/-- `poker_score_5(cards)`: category index and kicker list, mirroring the
branch chain of the source (straight flush 8, quads 7, full house 6, flush
5, straight 4, trips 3, two pair 2, pair 1, high card 0). -/
def poker_score_5 (cards : List Card) : Nat × List Nat :=
  if (straightTopOf cards).isSome ∧ isFlushOf cards then
    (8, [(straightTopOf cards).getD 0])
  else if (g0Of cards).2 = 4 then
    (7, [(g0Of cards).1,
         listMax ((valsOf cards).filter (fun v => v ≠ (g0Of cards).1))])
  else if (g0Of cards).2 = 3 ∧ 1 < (groupsOf cards).length ∧ 2 ≤ (g1Of cards).2 then
    (6, [(g0Of cards).1, (g1Of cards).1])
  else if isFlushOf cards then (5, valsOf cards)
  else if (straightTopOf cards).isSome then (4, [(straightTopOf cards).getD 0])
  else if (g0Of cards).2 = 3 then
    (3, (g0Of cards).1 :: ((valsOf cards).filter (fun v => v ≠ (g0Of cards).1)).take 2)
  else if (g0Of cards).2 = 2 ∧ 1 < (groupsOf cards).length ∧ (g1Of cards).2 = 2 then
    (2, [max (g0Of cards).1 (g1Of cards).1, min (g0Of cards).1 (g1Of cards).1,
         listMax ((valsOf cards).filter
           (fun v => v ≠ max (g0Of cards).1 (g1Of cards).1 ∧
                     v ≠ min (g0Of cards).1 (g1Of cards).1))])
  else if (g0Of cards).2 = 2 then
    (1, (g0Of cards).1 :: ((valsOf cards).filter (fun v => v ≠ (g0Of cards).1)).take 3)
  else (0, valsOf cards)

/-- Python list comparison (lexicographic, a strict prefix is smaller). -/
def listLtB : List Nat → List Nat → Bool
  | [], [] => false
  | [], _ :: _ => true
  | _ :: _, [] => false
  | a :: as, b :: bs => if a < b then true else if b < a then false else listLtB as bs

/-- Python tuple comparison on scores, `s < t`. -/
def scoreLtB (s t : Nat × List Nat) : Bool :=
  if s.1 < t.1 then true else if t.1 < s.1 then false else listLtB s.2 t.2

/-- `poker_best_7(cards7)`: the maximal `poker_score_5` over all 5-card
combinations (the trailing `getD` is the source's `(0, [])` fallback for an
empty input). -/
def poker_best_7 (cards7 : List Card) : Nat × List Nat :=
  ((cards7.sublistsLen 5).foldl
    (fun best combo =>
      let score := poker_score_5 combo
      match best with
      | none => some score
      | some b => if scoreLtB b score then some score else some b)
    none).getD (0, [])

/-! ### Heads-up hold'em state machine -/

def HE_BOT_CALL_MAX_PCT_OF_POT : Nat := 60
def HE_BOT_RAISE_CHANCE : Nat := 12
def HE_BOT_RAISE_PCT_OF_POT : Nat := 40

/-- The `HoldemHU` dataclass (the presentation-only `last_action` string is
omitted). -/
structure HoldemHU where
  game_id : String
  ante : Nat
  deck : List Card
  player_hole : List Card
  bot_hole : List Card
  full_board : List Card
  stage : Nat
  pot : Nat
  to_call_player : Nat
  to_call_bot : Nat
  invested_player : Nat
  invested_bot : Nat
  done : Bool
deriving DecidableEq

/-- `_community_for_stage`: 0 cards before the flop, 3 at stage 1, 4 at
stage 2, all 5 from stage 3 on. -/
def community_for_stage (full_board : List Card) (stage : Nat) : List Card :=
  if stage = 0 then []
  else if stage = 1 then full_board.take 3
  else if stage = 2 then full_board.take 4
  else full_board.take 5

/-- The scripted opponent's possible decisions (`_bot_decision` draws them
randomly; the decision is an explicit input here). -/
inductive BotDecision where
  | check | call | raise | fold
deriving DecidableEq, Repr

/-- The game the `holdem` command creates after both sides ante. -/
def holdem_start (gid : String) (ante : Nat)
    (deck player_hole bot_hole full_board : List Card) : HoldemHU :=
  { game_id := gid, ante := ante, deck := deck, player_hole := player_hole,
    bot_hole := bot_hole, full_board := full_board, stage := 0, pot := ante * 2,
    to_call_player := 0, to_call_bot := 0, invested_player := ante,
    invested_bot := ante, done := false }

/-- `_next_stage`: clear both owed amounts and advance the round (capped at
the showdown stage 4). -/
def next_stage (g : HoldemHU) : HoldemHU :=
  let g2 := { g with to_call_player := 0, to_call_bot := 0, stage := g.stage + 1 }
  if 3 < g2.stage then { g2 with stage := 4 } else g2

/-- Result of `_bot_act` on the session state: a fold awards the pot to the
player, otherwise the updated state either reaches showdown or play
continues. -/
inductive BotActResult where
  | folded (g : HoldemHU)
  | showdown (g : HoldemHU)
  | more (g : HoldemHU)
deriving DecidableEq

/-- The session state carried by a `BotActResult`. -/
def botActState : BotActResult → HoldemHU
  | .folded g => g
  | .showdown g => g
  | .more g => g

/-- `_bot_act` (state transitions only): a call moves the owed amount into
the pot and clears both owed amounts; a check changes nothing; a raise puts
`to_call_bot + raise_amt` into the pot and sets the player's owed amount to
`raise_amt`.  Whenever both owed amounts are zero afterwards the round
advances (`_next_stage` below stage 3, otherwise straight to showdown), and
a state at stage ≥ 4 goes to showdown. -/
def bot_act (g : HoldemHU) (d : BotDecision) : BotActResult :=
  match d with
  | .fold => .folded g
  | _ =>
    let g1 : HoldemHU :=
      match d with
      | .call =>
        { g with pot := g.pot + g.to_call_bot,
                 invested_bot := g.invested_bot + g.to_call_bot,
                 to_call_bot := 0, to_call_player := 0 }
      | .raise =>
        let base_pot := max 1 g.pot
        let raise_amt := min (max g.ante (base_pot * HE_BOT_RAISE_PCT_OF_POT / 100)) MAX_BET
        let total := g.to_call_bot + raise_amt
        { g with pot := g.pot + total,
                 invested_bot := g.invested_bot + total,
                 to_call_bot := 0, to_call_player := raise_amt }
      | _ => g
    let g2 : HoldemHU :=
      if g1.to_call_player = 0 ∧ g1.to_call_bot = 0 then
        if g1.stage < 3 then next_stage g1 else { g1 with stage := 4 }
      else g1
    if 4 ≤ g2.stage then .showdown g2 else .more g2

/-- `_player_bet_or_raise` (state update after the wallet debit of
`to_call_player + amount` succeeded): the whole debited total goes into the
pot, the player's owed amount is cleared and the opponent now owes the
raise amount. -/
def player_bet_or_raise (g : HoldemHU) (amount : Nat) : HoldemHU :=
  { g with pot := g.pot + (g.to_call_player + amount),
           invested_player := g.invested_player + (g.to_call_player + amount),
           to_call_bot := amount, to_call_player := 0 }

/-- The two session registries: `HE_HU_GAMES_BY_ID` keyed by game id and
`HE_HU_ACTIVE_BY_USER` keyed by (guild_id, user_id). -/
structure HEState where
  games : List (String × HoldemHU)
  active : List ((Nat × Nat) × String)
deriving DecidableEq

/-- `HoldemHUView.on_timeout`: drop the active-game pointer when it still
names this game, and pop the session itself.  The second component is the
total wallet delta the handler applies: the source credits nothing. -/
def he_on_timeout (st : HEState) (key : Nat × Nat) (gid : String) : HEState × Int :=
  let active2 :=
    if st.active.lookup key = some gid then removeKey key st.active else st.active
  (⟨removeKey gid st.games, active2⟩, 0)

/-- `_get_game_or_reply`: `none` (an ephemeral invalid-session reply, with
no mutation) when the game is absent or already done. -/
def he_get_game_or_reply (st : HEState) (gid : String) : Option HoldemHU :=
  match st.games.lookup gid with
  | none => none
  | some g => if g.done then none else some g

/-- Store a session back into the registry (Python mutates the dict entry
in place). -/
def setGame (st : HEState) (gid : String) (g : HoldemHU) : HEState :=
  ⟨(gid, g) :: removeKey gid st.games, st.active⟩

/-- `HoldemHUView._finish`: credit the pot on a player win and the player's
own investment on a push, then drop both registry entries. -/
def he_finish (st : HEState) (wallet : Int) (key : Nat × Nat) (g : HoldemHU)
    (player_won : Option Bool) : HEState × Int :=
  let payout : Nat :=
    match player_won with
    | some true => g.pot
    | none => g.invested_player
    | some false => 0
  let active2 :=
    if st.active.lookup key = some g.game_id then removeKey key st.active else st.active
  (⟨removeKey g.game_id st.games, active2⟩, wallet + payout)

/-- `_resolve_showdown`: compare the best 7-card scores and finish with the
corresponding winner (`none` is a tie). -/
def he_resolve_showdown (st : HEState) (wallet : Int) (key : Nat × Nat) (g : HoldemHU) :
    HEState × Int :=
  let board := g.full_board.take 5
  let p_score := poker_best_7 (g.player_hole ++ board)
  let b_score := poker_best_7 (g.bot_hole ++ board)
  if scoreLtB b_score p_score then he_finish st wallet key g (some true)
  else if scoreLtB p_score b_score then he_finish st wallet key g (some false)
  else he_finish st wallet key g none

/-- Registry-level `_bot_act`: a fold finishes with the player winning the
pot, a showdown resolves, and otherwise the updated session is stored
back. -/
def he_bot_act (st : HEState) (wallet : Int) (key : Nat × Nat) (g : HoldemHU)
    (d : BotDecision) : HEState × Int :=
  match bot_act g d with
  | .folded g2 => he_finish st wallet key g2 (some true)
  | .showdown g2 => he_resolve_showdown st wallet key g2
  | .more g2 => (setGame st g2.game_id g2, wallet)

/-- Result of a registry-level hold'em move. -/
inductive HEMoveResult where
  | rejected (e : OpError)
  | moved (st : HEState) (wallet : Int)
deriving DecidableEq

/-- The Check/Call button: reply-and-return when the session is missing or
done; when an amount is owed, reject without mutation if the wallet cannot
cover it, otherwise debit it into the pot and clear both owed amounts; then
the scripted opponent acts. -/
def he_check_call (st : HEState) (wallet : Int) (key : Nat × Nat) (gid : String)
    (d : BotDecision) : HEMoveResult :=
  match he_get_game_or_reply st gid with
  | none => .rejected .invalidSession
  | some g =>
    if 0 < g.to_call_player then
      let need := g.to_call_player
      if wallet < (need : Int) then .rejected .insufficientFunds
      else
        let g2 := { g with pot := g.pot + need,
                           invested_player := g.invested_player + need,
                           to_call_player := 0, to_call_bot := 0 }
        let r := he_bot_act st (wallet - need) key g2 d
        .moved r.1 r.2
    else
      let r := he_bot_act st wallet key g d
      .moved r.1 r.2

/-! ### Spec-side hand categories

These definitions follow the specification's words ("high-card, one pair,
two pair, three-of-a-kind, straight, flush, full house, four-of-a-kind,
straight flush", with the wheel recognized as a straight) and serve as the
comparator the evaluator is checked against. -/

/-- The number of cards of rank value `v` in the hand. -/
def rankCount (cards : List Card) (v : Nat) : Nat := (rankVals cards).count v

/-- Some rank occurs exactly `k` times. -/
def HasOfAKind (cards : List Card) (k : Nat) : Prop :=
  ∃ v ∈ rankVals cards, rankCount cards v = k

/-- All five cards share one suit. -/
def SpecFlush (cards : List Card) : Prop :=
  ∀ c1 ∈ cards, ∀ c2 ∈ cards, c1.2 = c2.2

/-- Five distinct rank values forming a consecutive run, or the ace-low
wheel (ace, 2, 3, 4, 5). -/
def SpecStraight (cards : List Card) : Prop :=
  (rankVals cards).Nodup ∧
    ((listMax (rankVals cards) : Int) - (listMin (rankVals cards) : Int) = 4 ∨
      ∀ x ∈ ([14, 5, 4, 3, 2] : List Nat), x ∈ rankVals cards)

/-- Two distinct ranks each occurring exactly twice. -/
def SpecTwoPair (cards : List Card) : Prop :=
  ∃ v ∈ rankVals cards, ∃ w ∈ rankVals cards,
    v ≠ w ∧ rankCount cards v = 2 ∧ rankCount cards w = 2

instance (cards : List Card) (k : Nat) : Decidable (HasOfAKind cards k) := by
  unfold HasOfAKind; exact inferInstance

instance (cards : List Card) : Decidable (SpecFlush cards) := by
  unfold SpecFlush; exact inferInstance

instance (cards : List Card) : Decidable (SpecStraight cards) := by
  unfold SpecStraight; exact inferInstance

instance (cards : List Card) : Decidable (SpecTwoPair cards) := by
  unfold SpecTwoPair; exact inferInstance

/-- The spec's category ranking, low to high: high-card 0, one pair 1, two
pair 2, three-of-a-kind 3, straight 4, flush 5, full house 6,
four-of-a-kind 7, straight flush 8. -/
def specCategory (cards : List Card) : Nat :=
  if SpecStraight cards ∧ SpecFlush cards then 8
  else if HasOfAKind cards 4 then 7
  else if HasOfAKind cards 3 ∧ HasOfAKind cards 2 then 6
  else if SpecFlush cards then 5
  else if SpecStraight cards then 4
  else if HasOfAKind cards 3 then 3
  else if SpecTwoPair cards then 2
  else if HasOfAKind cards 2 then 1
  else 0

/-! ## Theorems -/

/-- Removing a key from an association list makes it unfindable. -/
theorem lookup_removeKey {α β : Type} [BEq α] [LawfulBEq α] (k : α) (l : List (α × β)) :
    (removeKey k l).lookup k = none := by
  induction l with
  | nil => rfl
  | cons p t ih =>
    obtain ⟨a, b⟩ := p
    unfold removeKey at ih ⊢
    rw [List.filter_cons]
    by_cases h : (a == k) = true
    · rw [if_neg (by simp [h])]
      exact ih
    · have hk : (k == a) = false := by
        simp only [beq_eq_false_iff_ne]
        intro hh
        exact h (by simp [hh])
      rw [if_pos (by simpa using h), List.lookup_cons, hk]
      exact ih

/-- C1: every operation keeps the balance non-negative and over-balance
debits are rejected — the wheel loss fee violates this.  At the failing
input (wallet 100, bet 100, wager "red", losing pocket 0) the spin passes
the funds check, yet the unconditional loss-fee debit leaves the balance at
−5 < 0. -/
theorem c1_loss_fee_overdraft :
    (0 : Int) ≤ 100 ∧ (MIN_BET ≤ 100 ∧ 100 ≤ MAX_BET) ∧
    roulette_color 100 100 "red" (Pocket.n 0) = .ok ⟨-5, 0, 5, -105⟩ ∧
    (-5 : Int) < 0 :=
  ⟨by decide, ⟨by decide, by decide⟩, rfl, by decide⟩

/-- C2 counterexample: a Heads-Up session with `invested_player = 80` that
idles out has wallet delta 0 applied by `on_timeout`, not the 80 the claim
requires. -/
theorem c2_counterexample :
    (he_on_timeout
        ⟨[("g", { holdem_start "g" 40 [] [] [] [] with invested_player := 80 })],
         [((1, 2), "g")]⟩ (1, 2) "g").2 = 0 ∧
    ({ holdem_start "g" 40 [] [] [] [] with invested_player := 80 } : HoldemHU).invested_player
        = 80 ∧
    (0 : Int) ≠ 80 := by
  refine ⟨rfl, rfl, by decide⟩

/-- C2 (amended): idle expiry removes the Heads-Up session from the
registry and credits nothing — the invested stake is forfeited, not
returned — and a subsequent move against the now-missing session is
rejected as an invalid-session error without mutating any state. -/
theorem c2_timeout_behaviour :
    (∀ st key gid, (he_on_timeout st key gid).2 = 0 ∧
        ((he_on_timeout st key gid).1.games.lookup gid = none)) ∧
    (∀ st wallet key gid d, st.games.lookup gid = none →
        he_check_call st wallet key gid d = .rejected .invalidSession) := by
  constructor
  · intro st key gid
    exact ⟨rfl, lookup_removeKey gid st.games⟩
  · intro st wallet key gid d h
    unfold he_check_call he_get_game_or_reply
    rw [h]

/-- Witness for C2 (amended): a move against an empty registry is rejected
as an invalid session. -/
theorem c2_timeout_behaviour_witness :
    he_check_call ⟨[], []⟩ 0 (1, 2) "g" BotDecision.check = .rejected .invalidSession :=
  c2_timeout_behaviour.2 ⟨[], []⟩ 0 (1, 2) "g" BotDecision.check rfl

/-- C3 counterexample: pocket 17 is black in the code's color table, so a
100-coin "red" wager with pocket 17 drawn pays 0 with net −105 — not the
payout 300 / net +200 the claim states. -/
theorem c3_counterexample :
    pocket_color (Pocket.n 17) = "black" ∧
    roulette_color 1000 100 "red" (Pocket.n 17) = .ok ⟨895, 0, 5, -105⟩ :=
  ⟨by decide, rfl⟩

/-- C3 (amended): for every in-bounds color wager covered by the balance, a
color match pays 3× the stake (net +2×, no fee) and a miss pays 0 with net
−(stake + ⌊stake·5/100⌋), the fee applying only to zero payouts; pocket 17
being black, a 100-coin "black" wager on that draw pays 300 (net +200) and
a "red" wager pays 0 (net −105). -/
theorem c3_color_settlement (wallet : Int) (bet : Nat) (choice : String) (roll : Pocket)
    (hmin : MIN_BET ≤ bet) (hmax : bet ≤ MAX_BET) (hw : (bet : Int) ≤ wallet) :
    (pocket_color roll = choice →
      roulette_color wallet bet choice roll =
        .ok ⟨wallet + 2 * bet, 3 * bet, 0, 2 * bet⟩) ∧
    (pocket_color roll ≠ choice →
      roulette_color wallet bet choice roll =
        .ok ⟨wallet - bet - (bet * 5 / 100 : Nat), 0, bet * 5 / 100,
             -((bet : Int) + (bet * 5 / 100 : Nat))⟩) ∧
    roulette_color 1000 100 "black" (Pocket.n 17) = .ok ⟨1200, 300, 0, 200⟩ ∧
    roulette_color 1000 100 "red" (Pocket.n 17) = .ok ⟨895, 0, 5, -105⟩ := by
  have hmin' : 10 ≤ bet := hmin
  have hmax' : bet ≤ 100000 := hmax
  have hnb : ¬(bet < MIN_BET ∨ MAX_BET < bet) := by
    unfold MIN_BET MAX_BET; omega
  have hnw : ¬(wallet < (bet : Int)) := by omega
  refine ⟨?_, ?_, rfl, rfl⟩
  · intro hm
    simp only [roulette_color]
    rw [if_neg hnb, if_neg hnw]
    have h3 : ¬(bet * COLOR_RETURN_MULT = 0) := by unfold COLOR_RETURN_MULT; omega
    simp only [hm, eq_self_iff_true, if_true]
    rw [if_neg h3]
    rw [Except.ok.injEq, RouletteOutcome.mk.injEq]
    refine ⟨by simp [COLOR_RETURN_MULT]; omega, by simp [COLOR_RETURN_MULT]; omega, rfl,
      by simp [COLOR_RETURN_MULT]; omega⟩
  · intro hm
    simp only [roulette_color]
    rw [if_neg hnb, if_neg hnw]
    rw [if_neg hm]
    simp only [eq_self_iff_true, if_true, loss_fee, ROULETTE_LOSS_FEE_PCT]
    rw [if_neg (by omega : ¬((5 : Nat) = 0))]
    rw [Except.ok.injEq, RouletteOutcome.mk.injEq]
    refine ⟨by omega, rfl, rfl, by omega⟩

/-- Witness for C3 (amended): the concrete pocket-17 instances at stake 100
and wallet 1000. -/
theorem c3_color_settlement_witness :
    roulette_color 1000 100 "black" (Pocket.n 17) = .ok ⟨1200, 300, 0, 200⟩ ∧
    roulette_color 1000 100 "red" (Pocket.n 17) = .ok ⟨895, 0, 5, -105⟩ :=
  ⟨(c3_color_settlement 1000 100 "black" (Pocket.n 17) (by decide) (by decide)
      (by decide)).2.2.1,
   (c3_color_settlement 1000 100 "red" (Pocket.n 17) (by decide) (by decide)
      (by decide)).2.2.2⟩

/-- C4: with a positive owed balance and a recorded last accrual, the loan
compounds `B += ⌊B·rate/100⌋` once per whole elapsed day
`D = ⌊(now − last_accrual)/86400⌋`, `last_accrual` advances by exactly
`D·86400` (never snapping to `now`), `D = 0` changes nothing, and 1000 at
25 %/day becomes 1562 after two full days. -/
theorem c4_loan_accrual (row : Loan) (now : Int) (D : Nat)
    (hb : 0 < row.balance) (hl : 0 < row.last_accrual)
    (hD : (now - row.last_accrual).fdiv (24 * 60 * 60) = (D : Int)) :
    accrue_loan row now =
      (if D = 0 then row
       else { row with
                balance := (accrue_step row.daily_interest_pct)^[D] row.balance,
                last_accrual := row.last_accrual + (D : Int) * (24 * 60 * 60) }) ∧
    (D = 0 → accrue_loan row now = row) ∧
    (row.daily_interest_pct = 25 → row.balance = 1000 → D = 2 →
      (accrue_loan row now).balance = 1562) := by
  have h0 : ¬(row.balance = 0) := by omega
  have h1 : ¬(row.last_accrual ≤ 0) := by omega
  have hdays : (max 0 ((now - row.last_accrual).fdiv (24 * 60 * 60))).toNat = D := by
    rw [hD]; omega
  have hmain : accrue_loan row now =
      (if D = 0 then row
       else { row with
                balance := (accrue_step row.daily_interest_pct)^[D] row.balance,
                last_accrual := row.last_accrual + (D : Int) * (24 * 60 * 60) }) := by
    simp only [accrue_loan, if_neg h0, if_neg h1, hdays]
  refine ⟨hmain, ?_, ?_⟩
  · intro h
    rw [hmain, if_pos h]
  · intro hr hbal h2
    rw [hmain, if_neg (by omega : ¬(D = 0))]
    subst h2
    simp only [hr, hbal]
    decide

/-- Witness for C4: a loan of 1000 at 25 %/day, last accrued at time 5,
read at time 172905 (two full days plus 100 seconds later). -/
theorem c4_loan_accrual_witness :
    accrue_loan ⟨1000, 1000, 25, 10, 5, 5⟩ 172905 = ⟨1000, 1562, 25, 10, 5, 172805⟩ := by
  have h := (c4_loan_accrual ⟨1000, 1000, 25, 10, 5, 5⟩ 172905 2 (by decide) (by decide)
    (by decide)).1
  rw [h]
  decide

/-- C5: a two-card 21 resolves the Card Duel instantly (no session is
created): a push returning the stake when the dealer also holds a natural,
otherwise a win paying `stake + ⌊stake·3/2⌋` (net `+⌊stake·3/2⌋`). -/
theorem c5_natural_resolution (bet : Nat) (deck player dealer : List Card)
    (hp : is_natural_blackjack player = true) :
    (is_natural_blackjack dealer = true →
      blackjack_natural_check bet deck player dealer = .settled "push" bet 0) ∧
    (is_natural_blackjack dealer = false →
      blackjack_natural_check bet deck player dealer =
        .settled "win" (bet + bet * 3 / 2) ((bet * 3 / 2 : Nat) : Int)) := by
  constructor
  · intro hd
    unfold blackjack_natural_check
    rw [hp, hd]
    simp
  · intro hd
    unfold blackjack_natural_check
    rw [hp, hd]
    simp only [if_true, Bool.false_eq_true, if_false, BJ_NATURAL_PROFIT_NUM,
      BJ_NATURAL_PROFIT_DEN, BJStartResult.settled.injEq, eq_self_iff_true, true_and]
    push_cast
    ring_nf

/-- Witness for C5: ace+king versus 9+7 wins 150 on a 100 stake; versus
ace+queen it pushes. -/
theorem c5_natural_resolution_witness :
    blackjack_natural_check 100 [] [(Rank.rA, 0), (Rank.rK, 1)] [(Rank.r9, 0), (Rank.r7, 1)] =
      .settled "win" 250 150 ∧
    blackjack_natural_check 100 [] [(Rank.rA, 0), (Rank.rK, 1)] [(Rank.rA, 1), (Rank.rQ, 0)] =
      .settled "push" 100 0 := by
  constructor
  · have h := (c5_natural_resolution 100 [] [(Rank.rA, 0), (Rank.rK, 1)]
      [(Rank.r9, 0), (Rank.r7, 1)] (by decide)).2 (by decide)
    simpa using h
  · exact (c5_natural_resolution 100 [] [(Rank.rA, 0), (Rank.rK, 1)]
      [(Rank.rA, 1), (Rank.rQ, 0)] (by decide)).1 (by decide)

/-- C9: Surrender is accepted only while the hand is exactly the two dealt
cards and not doubled (otherwise rejected with no mutation); when accepted
it ends the session, returns `⌊stake/2⌋`, and the net is
`⌊stake/2⌋ − stake = −⌈stake/2⌉` (the integer floor of −stake/2), for every
stake including odd ones. -/
theorem c9_surrender (games : List ((Nat × Nat) × BJGame)) (key : Nat × Nat)
    (wallet : Int) (g : BJGame)
    (hg : games.lookup key = some g) (hdone : g.done = false) :
    ((g.player.length ≠ 2 ∨ g.doubled = true) →
      bj_surrender games key wallet = .rejected .invalidMove) ∧
    (g.player.length = 2 → g.doubled = false →
      bj_surrender games key wallet =
        .settled (removeKey key games) (wallet + (g.bet / 2 : Nat))
          (g.bet / 2) (((g.bet / 2 : Nat) : Int) - g.bet) ∧
      (((g.bet / 2 : Nat) : Int) - g.bet = -((((g.bet + 1) / 2 : Nat) : Int))) ∧
      (removeKey key games).lookup key = none) := by
  constructor
  · intro hbad
    unfold bj_surrender
    rw [if_neg (by decide : ¬(BJ_ALLOW_SURRENDER = false)), hg]
    simp only [hdone]
    rw [if_neg (by simp : ¬(false = true))]
    rw [if_pos]
    rcases hbad with h | h
    · exact Or.inl h
    · exact Or.inr (by simp [h])
  · intro hlen hdbl
    have hok : ¬(g.player.length ≠ 2 ∨ g.doubled) := by
      simp [hlen, hdbl]
    refine ⟨?_, by omega, lookup_removeKey key games⟩
    unfold bj_surrender
    rw [if_neg (by decide : ¬(BJ_ALLOW_SURRENDER = false)), hg]
    simp only [hdone]
    rw [if_neg (by simp : ¬(false = true)), if_neg hok]

/-- Witness for C9: surrendering a fresh two-card hand with odd stake 101
returns 50, net −51, and removes the session. -/
theorem c9_surrender_witness :
    bj_surrender [((1, 1), ⟨101, [], [(Rank.r5, 0), (Rank.r9, 1)], [(Rank.rK, 0), (Rank.r7, 1)],
        false, false⟩)] (1, 1) 0 =
      .settled [] 50 50 (-51) := by
  have h := ((c9_surrender [((1, 1), ⟨101, [], [(Rank.r5, 0), (Rank.r9, 1)],
      [(Rank.rK, 0), (Rank.r7, 1)], false, false⟩)] (1, 1) 0
      ⟨101, [], [(Rank.r5, 0), (Rank.r9, 1)], [(Rank.rK, 0), (Rank.r7, 1)], false, false⟩
      (by decide) rfl).2 rfl rfl).1
  simpa using h

/-- C10: for every positive requested amount the admin confiscation debits
exactly `min(amount, wallet)`, always leaves the balance ≥ 0, never
rejects for insufficient funds, and touches no column other than the
wallet. -/
theorem c10_admin_take (acct : Account) (amount : Int) (hpos : 0 < amount) :
    admin_take acct amount =
      .ok { acct with wallet := acct.wallet - min amount acct.wallet } ∧
    0 ≤ acct.wallet - min amount acct.wallet ∧
    ({ acct with wallet := acct.wallet - min amount acct.wallet } : Account).last_daily
        = acct.last_daily ∧
    ({ acct with wallet := acct.wallet - min amount acct.wallet } : Account).daily_streak
        = acct.daily_streak ∧
    ({ acct with wallet := acct.wallet - min amount acct.wallet } : Account).plays
        = acct.plays ∧
    ({ acct with wallet := acct.wallet - min amount acct.wallet } : Account).profit
        = acct.profit := by
  refine ⟨?_, by omega, rfl, rfl, rfl, rfl⟩
  unfold admin_take
  rw [if_neg (by omega : ¬(amount ≤ 0))]

/-- Witness for C10: confiscating 500 from a wallet of 120 debits 120 and
leaves exactly 0. -/
theorem c10_admin_take_witness :
    admin_take ⟨120, 7, 3, 2, -4⟩ 500 = .ok ⟨0, 7, 3, 2, -4⟩ := by
  have h := (c10_admin_take ⟨120, 7, 3, 2, -4⟩ 500 (by decide)).1
  rw [h]
  rfl

/-- C8: after both sides ante 50 the pot is 100 with nothing owed; a
bet/raise with nothing owed adds the amount to the pot, clears the player's
owed amount and sets the opponent's to that amount (without touching the
round); an opponent call after a 30 bet makes the pot 160, zeroes both owed
amounts and advances the round (revealing the flop tranche), while a call
at the final round goes to showdown instead; and the round only ever
changes when both owed amounts end at zero. -/
theorem c8_pot_accounting :
    (∀ gid deck ph bh board, (holdem_start gid 50 deck ph bh board).pot = 100 ∧
        (holdem_start gid 50 deck ph bh board).to_call_player = 0 ∧
        (holdem_start gid 50 deck ph bh board).to_call_bot = 0 ∧
        (holdem_start gid 50 deck ph bh board).stage = 0) ∧
    (∀ g amount, g.to_call_player = 0 →
        player_bet_or_raise g amount =
          { g with pot := g.pot + amount,
                   invested_player := g.invested_player + amount,
                   to_call_bot := amount, to_call_player := 0 } ∧
        (player_bet_or_raise g amount).stage = g.stage) ∧
    (∀ gid deck ph bh board,
        bot_act (player_bet_or_raise (holdem_start gid 50 deck ph bh board) 30)
            BotDecision.call =
          .more { holdem_start gid 50 deck ph bh board with
                    pot := 160, invested_player := 80, invested_bot := 80, stage := 1 }) ∧
    (∀ g, g.stage = 3 →
        bot_act g BotDecision.call =
          .showdown { g with pot := g.pot + g.to_call_bot,
                             invested_bot := g.invested_bot + g.to_call_bot,
                             to_call_bot := 0, to_call_player := 0, stage := 4 }) ∧
    (∀ g d, (botActState (bot_act g d)).stage ≠ g.stage →
        (botActState (bot_act g d)).to_call_player = 0 ∧
        (botActState (bot_act g d)).to_call_bot = 0) ∧
    (∀ board : List Card, community_for_stage board 0 = [] ∧
        community_for_stage board 1 = board.take 3) := by
  refine ⟨?_, ?_, ?_, ?_, ?_, ?_⟩
  · intro gid deck ph bh board
    exact ⟨rfl, rfl, rfl, rfl⟩
  · intro g amount h
    unfold player_bet_or_raise
    rw [h]
    refine ⟨by simp, rfl⟩
  · intro gid deck ph bh board
    rfl
  · intro g h
    unfold bot_act next_stage
    simp only [h]
    rfl
  · intro g d
    cases d with
    | fold => intro h; exact absurd rfl h
    | check =>
      simp only [bot_act, next_stage]
      split_ifs <;> simp_all [botActState]
    | call =>
      simp only [bot_act, next_stage]
      split_ifs <;> simp_all [botActState]
    | raise =>
      simp only [bot_act, next_stage]
      split_ifs <;> simp_all [botActState]
  · intro board
    exact ⟨rfl, rfl⟩

/-- Witness for C8: from a fresh 50-ante game, betting 30 puts the pot at
130 with the opponent owing 30. -/
theorem c8_pot_accounting_witness :
    player_bet_or_raise (holdem_start "g" 50 [] [] [] []) 30 =
      { holdem_start "g" 50 [] [] [] [] with
          pot := (holdem_start "g" 50 [] [] [] []).pot + 30,
          invested_player := (holdem_start "g" 50 [] [] [] []).invested_player + 30,
          to_call_bot := 30, to_call_player := 0 } :=
  (c8_pot_accounting.2.1 (holdem_start "g" 50 [] [] [] []) 30 rfl).1

/-- C6: the dealer draws exactly while the hand total is below 17, drawing
on a soft 17 only when configured to hit soft 17 (with the shipped
`BJ_DEALER_STANDS_SOFT_17 = true` the dealer stands on every 17); when the
loop returns the hand satisfies the stand condition; the comparison pays
total return 2× the recorded bet (net +bet) on a dealer bust or a strictly
higher player total, returns the bet on equal totals, and loses the full
recorded stake otherwise; and every settled Stand removes the session from
the registry. -/
theorem c6_dealer_turn :
    (∀ dealer, dealer_should_draw BJ_DEALER_STANDS_SOFT_17 dealer =
        decide (hand_value dealer < 17)) ∧
    (∀ stands deck dealer c, dealer_should_draw stands dealer = true →
        dealer_play stands (c :: deck) dealer = dealer_play stands deck (dealer ++ [c])) ∧
    (∀ stands deck dealer, dealer_should_draw stands dealer = false →
        dealer_play stands deck dealer = some (dealer, deck)) ∧
    (∀ stands deck dealer d2 rest, dealer_play stands deck dealer = some (d2, rest) →
        17 ≤ hand_value d2 ∧
        (hand_value d2 = 17 → is_soft d2 = true → stands = true)) ∧
    (∀ bet pv dv,
        ((21 < dv ∨ dv < pv) → bj_resolve bet pv dv = ("win", 2 * bet, (bet : Int))) ∧
        (dv ≤ 21 → pv = dv → bj_resolve bet pv dv = ("push", bet, 0)) ∧
        (dv ≤ 21 → pv < dv → bj_resolve bet pv dv = ("loss", 0, -(bet : Int)))) ∧
    (∀ games key wallet g d2 rest, games.lookup key = some g → g.done = false →
        dealer_play BJ_DEALER_STANDS_SOFT_17 g.deck g.dealer = some (d2, rest) →
        bj_stand games key wallet =
          .settled (removeKey key games)
            (wallet + (bj_resolve g.bet (hand_value g.player) (hand_value d2)).2.1)
            (bj_resolve g.bet (hand_value g.player) (hand_value d2)).1
            (bj_resolve g.bet (hand_value g.player) (hand_value d2)).2.1
            (bj_resolve g.bet (hand_value g.player) (hand_value d2)).2.2 ∧
        (removeKey key games).lookup key = none) := by
  have hstop : ∀ stands deck dealer d2 rest,
      dealer_play stands deck dealer = some (d2, rest) →
      dealer_should_draw stands d2 = false := by
    intro stands deck
    induction deck with
    | nil =>
      intro dealer d2 rest h
      unfold dealer_play at h
      by_cases hd : dealer_should_draw stands dealer = true
      · rw [if_pos hd] at h; exact absurd h (by simp)
      · rw [if_neg hd] at h
        injection h with h1
        injection h1 with h2 h3
        rw [← h2]
        simpa using hd
    | cons c deck ih =>
      intro dealer d2 rest h
      unfold dealer_play at h
      by_cases hd : dealer_should_draw stands dealer = true
      · rw [if_pos hd] at h
        exact ih (dealer ++ [c]) d2 rest h
      · rw [if_neg hd] at h
        injection h with h1
        injection h1 with h2 h3
        rw [← h2]
        simpa using hd
  refine ⟨?_, ?_, ?_, ?_, ?_, ?_⟩
  · intro dealer
    unfold dealer_should_draw BJ_DEALER_STANDS_SOFT_17
    simp
  · intro stands deck dealer c h
    simp only [dealer_play]
    rw [if_pos h]
  · intro stands deck dealer h
    cases deck with
    | nil => simp only [dealer_play]; rw [if_neg (by simp [h])]
    | cons c deck => simp only [dealer_play]; rw [if_neg (by simp [h])]
  · intro stands deck dealer d2 rest h
    have hs := hstop stands deck dealer d2 rest h
    unfold dealer_should_draw at hs
    constructor
    · by_contra hlt
      rw [Nat.not_le] at hlt
      simp [hlt] at hs
    · intro h17 hsoft
      simp [h17, hsoft] at hs
      exact hs
  · intro bet pv dv
    refine ⟨?_, ?_, ?_⟩
    · intro h
      unfold bj_resolve frac_mult BJ_WIN_RETURN_MULT_NUM BJ_WIN_RETURN_MULT_DEN
      rw [if_pos h]
      have heq : bet * 2 / 1 = 2 * bet := by omega
      rw [heq]
      simp only [Prod.mk.injEq, eq_self_iff_true, true_and]
      push_cast
      ring
    · intro h1 h2
      unfold bj_resolve frac_mult BJ_PUSH_RETURN_MULT_NUM BJ_PUSH_RETURN_MULT_DEN
      rw [if_neg (by omega), if_pos h2]
      have heq : bet * 1 / 1 = bet := by omega
      rw [heq]
      simp only [Prod.mk.injEq, eq_self_iff_true, true_and]
      ring
    · intro h1 h2
      unfold bj_resolve
      rw [if_neg (by omega), if_neg (by omega)]
  · intro games key wallet g d2 rest hg hdone hplay
    refine ⟨?_, lookup_removeKey key games⟩
    unfold bj_stand
    rw [hg]
    simp only [hdone, Bool.false_eq_true, if_false, hplay]

/-- Witness for C6: a dealer at K+6 (16) draws a 5 to stand at 21 and beats
a player 19, losing the player the full stake. -/
theorem c6_dealer_turn_witness :
    bj_stand [((1, 1), ⟨40, [(Rank.r5, 0)], [(Rank.rK, 2), (Rank.r9, 3)],
        [(Rank.rK, 0), (Rank.r6, 1)], false, false⟩)] (1, 1) 500 =
      .settled [] 500 "loss" 0 (-40) := by
  have h := (c6_dealer_turn.2.2.2.2.2 [((1, 1), ⟨40, [(Rank.r5, 0)],
      [(Rank.rK, 2), (Rank.r9, 3)], [(Rank.rK, 0), (Rank.r6, 1)], false, false⟩)]
      (1, 1) 500 ⟨40, [(Rank.r5, 0)], [(Rank.rK, 2), (Rank.r9, 3)],
      [(Rank.rK, 0), (Rank.r6, 1)], false, false⟩
      [(Rank.rK, 0), (Rank.r6, 1), (Rank.r5, 0)] []
      (by decide) rfl (by decide)).1
  rw [h]
  rfl

/-! ### Helper lemmas for the hand-evaluator claim -/

theorem count_add_count_le {v w : Nat} (l : List Nat) (h : v ≠ w) :
    l.count v + l.count w ≤ l.length := by
  induction l with
  | nil => simp
  | cons a t ih =>
    rw [List.count_cons, List.count_cons, List.length_cons]
    by_cases h1 : v = a
    · have e1 : (a == v) = true := by simp [h1]
      have e2 : (a == w) = false := by
        simp only [beq_eq_false_iff_ne]
        intro hh
        exact h (h1.trans hh)
      rw [e1, e2]
      simp only [if_true, Bool.false_eq_true, if_false]
      omega
    · have e1 : (a == v) = false := by simp [Ne.symm h1]
      by_cases h2 : w = a
      · have e2 : (a == w) = true := by simp [h2]
        rw [e1, e2]
        simp only [if_true, Bool.false_eq_true, if_false]
        omega
      · have e2 : (a == w) = false := by simp [Ne.symm h2]
        rw [e1, e2]
        simp only [Bool.false_eq_true, if_false]
        omega

theorem count3_le {u v w : Nat} (l : List Nat) (huv : u ≠ v) (huw : u ≠ w) (hvw : v ≠ w) :
    l.count u + l.count v + l.count w ≤ l.length := by
  induction l with
  | nil => simp
  | cons a t ih =>
    rw [List.count_cons, List.count_cons, List.count_cons, List.length_cons]
    by_cases h1 : u = a
    · have e1 : (a == u) = true := by simp [h1]
      have e2 : (a == v) = false := by
        simp only [beq_eq_false_iff_ne]
        intro hh
        exact huv (h1.trans hh)
      have e3 : (a == w) = false := by
        simp only [beq_eq_false_iff_ne]
        intro hh
        exact huw (h1.trans hh)
      rw [e1, e2, e3]
      simp only [if_true, Bool.false_eq_true, if_false]
      omega
    · have e1 : (a == u) = false := by simp [Ne.symm h1]
      by_cases h2 : v = a
      · have e2 : (a == v) = true := by simp [h2]
        have e3 : (a == w) = false := by
          simp only [beq_eq_false_iff_ne]
          intro hh
          exact hvw (h2.trans hh)
        rw [e1, e2, e3]
        simp only [if_true, Bool.false_eq_true, if_false]
        omega
      · have e2 : (a == v) = false := by simp [Ne.symm h2]
        by_cases h3 : w = a
        · have e3 : (a == w) = true := by simp [h3]
          rw [e1, e2, e3]
          simp only [if_true, Bool.false_eq_true, if_false]
          omega
        · have e3 : (a == w) = false := by simp [Ne.symm h3]
          rw [e1, e2, e3]
          simp only [Bool.false_eq_true, if_false]
          omega

theorem two_mem_length {α : Type} {l : List α} {a b : α}
    (ha : a ∈ l) (hb : b ∈ l) (hne : a ≠ b) : 1 < l.length := by
  cases l with
  | nil => simp at ha
  | cons x t =>
    cases t with
    | nil =>
      simp at ha hb
      rw [ha, hb] at hne
      exact absurd rfl hne
    | cons y t2 => simp [Nat.lt_add_one_iff]

theorem le_listMax {l : List Nat} {x : Nat} (h : x ∈ l) : x ≤ listMax l := by
  induction l with
  | nil => simp at h
  | cons a t ih =>
    have hfold : listMax (a :: t) = max a (listMax t) := rfl
    rw [hfold]
    rcases List.mem_cons.mp h with h1 | h1
    · omega
    · have := ih h1
      omega

theorem listMax_mem {l : List Nat} (h : l ≠ []) : listMax l ∈ l := by
  induction l with
  | nil => exact absurd rfl h
  | cons a t ih =>
    cases t with
    | nil => simp [listMax]
    | cons b t2 =>
      have hmem := ih (by simp)
      have hfold : listMax (a :: b :: t2) = max a (listMax (b :: t2)) := rfl
      rw [hfold]
      by_cases hc : listMax (b :: t2) ≤ a
      · have heq : max a (listMax (b :: t2)) = a := by omega
        rw [heq]
        exact List.mem_cons_self a _
      · have heq : max a (listMax (b :: t2)) = listMax (b :: t2) := by omega
        rw [heq]
        exact List.mem_cons_of_mem a hmem

theorem foldr_min_le_base (l : List Nat) (a : Nat) : l.foldr min a ≤ a := by
  induction l with
  | nil => simp
  | cons b t ih =>
    have hfold : (b :: t).foldr min a = min b (t.foldr min a) := rfl
    rw [hfold]
    omega

theorem foldr_min_le_mem {l : List Nat} {x : Nat} (a : Nat) (h : x ∈ l) :
    l.foldr min a ≤ x := by
  induction l with
  | nil => simp at h
  | cons b t ih =>
    have hfold : (b :: t).foldr min a = min b (t.foldr min a) := rfl
    rw [hfold]
    rcases List.mem_cons.mp h with h1 | h1
    · omega
    · have := ih h1
      omega

theorem foldr_min_mem (l : List Nat) (a : Nat) :
    l.foldr min a = a ∨ l.foldr min a ∈ l := by
  induction l with
  | nil => exact Or.inl rfl
  | cons b t ih =>
    have hfold : (b :: t).foldr min a = min b (t.foldr min a) := rfl
    rw [hfold]
    by_cases hc : b ≤ t.foldr min a
    · have heq : min b (t.foldr min a) = b := by omega
      rw [heq]
      exact Or.inr (List.mem_cons_self b t)
    · have heq : min b (t.foldr min a) = t.foldr min a := by omega
      rw [heq]
      rcases ih with h1 | h1
      · exact Or.inl h1
      · exact Or.inr (List.mem_cons_of_mem b h1)

theorem listMin_le {l : List Nat} {x : Nat} (h : x ∈ l) : listMin l ≤ x := by
  cases l with
  | nil => simp at h
  | cons a t =>
    rcases List.mem_cons.mp h with h1 | h1
    · rw [h1, listMin]
      exact foldr_min_le_base t a
    · rw [listMin]
      exact foldr_min_le_mem a h1

theorem listMin_mem {l : List Nat} (h : l ≠ []) : listMin l ∈ l := by
  cases l with
  | nil => exact absurd rfl h
  | cons a t =>
    rcases foldr_min_mem t a with h1 | h1
    · rw [listMin, h1]
      exact List.mem_cons_self a t
    · rw [listMin]
      exact List.mem_cons_of_mem a h1

theorem rankVals_length (cards : List Card) : (rankVals cards).length = cards.length :=
  List.length_map _ _

theorem valsOf_perm (cards : List Card) : List.Perm (valsOf cards) (rankVals cards) :=
  List.perm_insertionSort _ _

theorem valsOf_count (cards : List Card) (v : Nat) :
    (valsOf cards).count v = (rankVals cards).count v :=
  (valsOf_perm cards).count_eq v

theorem mem_valsOf {cards : List Card} {v : Nat} : v ∈ valsOf cards ↔ v ∈ rankVals cards :=
  (valsOf_perm cards).mem_iff

theorem valsOf_length (cards : List Card) : (valsOf cards).length = cards.length := by
  rw [(valsOf_perm cards).length_eq, rankVals_length]

theorem valsOf_ne_nil {cards : List Card} (h : cards ≠ []) : valsOf cards ≠ [] := by
  intro hv
  have hlen := valsOf_length cards
  rw [hv] at hlen
  exact h (List.length_eq_zero.mp hlen.symm)

theorem mem_pairsOf {cards : List Card} {p : Nat × Nat} :
    p ∈ pairsOf cards ↔ p.1 ∈ valsOf cards ∧ p.2 = (valsOf cards).count p.1 := by
  obtain ⟨p1, p2⟩ := p
  unfold pairsOf
  rw [List.mem_map]
  constructor
  · rintro ⟨v, hv, heq⟩
    obtain ⟨h1, h2⟩ := Prod.mk.injEq .. ▸ heq
    subst h1
    exact ⟨List.mem_dedup.mp hv, h2.symm⟩
  · rintro ⟨h1, h2⟩
    refine ⟨p1, List.mem_dedup.mpr h1, ?_⟩
    simp only at h2 ⊢
    rw [h2]

theorem pairsOf_nodup (cards : List Card) : (pairsOf cards).Nodup := by
  unfold pairsOf
  exact (List.nodup_dedup _).map (fun a b hab => congrArg Prod.fst hab)

theorem pairsOf_ne_nil {cards : List Card} (h : cards ≠ []) : pairsOf cards ≠ [] := by
  unfold pairsOf
  intro hp
  have hd := List.map_eq_nil_iff.mp hp
  exact valsOf_ne_nil h ((List.dedup_eq_nil _).mp hd)

theorem groupsOf_perm (cards : List Card) : List.Perm (groupsOf cards) (pairsOf cards) :=
  List.perm_insertionSort _ _

theorem groupsOf_sorted (cards : List Card) : List.Sorted grpGE (groupsOf cards) :=
  List.sorted_insertionSort _ _

theorem grpGE_refl (p : Nat × Nat) : grpGE p p := Or.inr ⟨rfl, le_refl _⟩

theorem groupsOf_ne_nil {cards : List Card} (h : cards ≠ []) : groupsOf cards ≠ [] := by
  intro hg
  have hlen := (groupsOf_perm cards).length_eq
  rw [hg] at hlen
  exact pairsOf_ne_nil h (List.length_eq_zero.mp hlen.symm)

theorem g0_spec {cards : List Card} (h : cards ≠ []) :
    g0Of cards ∈ pairsOf cards ∧ ∀ p ∈ pairsOf cards, grpGE (g0Of cards) p := by
  have hne := groupsOf_ne_nil h
  obtain ⟨g0, gs, hg⟩ := List.exists_cons_of_ne_nil hne
  have hperm := groupsOf_perm cards
  have hsort := groupsOf_sorted cards
  have hg0 : g0Of cards = g0 := by unfold g0Of; rw [hg]; rfl
  rw [hg0]
  constructor
  · exact hperm.mem_iff.mp (by rw [hg]; exact List.mem_cons_self _ _)
  · intro p hp
    have hpg : p ∈ groupsOf cards := hperm.mem_iff.mpr hp
    rw [hg] at hpg hsort
    rcases List.mem_cons.mp hpg with h1 | h1
    · rw [h1]
      exact grpGE_refl _
    · exact List.rel_of_sorted_cons hsort p h1

theorem g0_count {cards : List Card} (h : cards ≠ []) :
    (g0Of cards).1 ∈ valsOf cards ∧ (g0Of cards).2 = (valsOf cards).count (g0Of cards).1 :=
  mem_pairsOf.mp (g0_spec h).1

theorem count_le_g0 {cards : List Card} (h : cards ≠ []) {v : Nat} (hv : v ∈ valsOf cards) :
    (valsOf cards).count v ≤ (g0Of cards).2 := by
  have hp : ((v, (valsOf cards).count v) : Nat × Nat) ∈ pairsOf cards :=
    mem_pairsOf.mpr ⟨hv, rfl⟩
  have hge := (g0_spec h).2 _ hp
  unfold grpGE at hge
  rcases hge with h1 | h1
  · exact le_of_lt h1
  · exact le_of_eq h1.1.symm

theorem g1_spec {cards : List Card} (hlen : 1 < (groupsOf cards).length) :
    g1Of cards ∈ pairsOf cards ∧ (g1Of cards).1 ≠ (g0Of cards).1 ∧
    (g1Of cards).2 ≤ (g0Of cards).2 ∧
    ∀ p ∈ pairsOf cards, p ≠ g0Of cards → grpGE (g1Of cards) p := by
  have hnegr : groupsOf cards ≠ [] := by
    intro hh
    rw [hh] at hlen
    simp at hlen
  obtain ⟨g0, gs, hg⟩ := List.exists_cons_of_ne_nil hnegr
  cases gs with
  | nil =>
    rw [hg] at hlen
    simp at hlen
  | cons g1 gs2 =>
    have hperm := groupsOf_perm cards
    have hsort := groupsOf_sorted cards
    have hg0 : g0Of cards = g0 := by unfold g0Of; rw [hg]; rfl
    have hg1 : g1Of cards = g1 := by unfold g1Of; rw [hg]; rfl
    have hnodup : (groupsOf cards).Nodup := hperm.symm.nodup (pairsOf_nodup cards)
    have hmem1 : g1 ∈ pairsOf cards := by
      refine hperm.mem_iff.mp ?_
      rw [hg]
      exact List.mem_cons_of_mem _ (List.mem_cons_self _ _)
    have hmem0 : g0 ∈ pairsOf cards := by
      refine hperm.mem_iff.mp ?_
      rw [hg]
      exact List.mem_cons_self _ _
    have hne01 : g0 ≠ g1 := by
      rw [hg] at hnodup
      intro hh
      rcases List.nodup_cons.mp hnodup with ⟨hnm, _⟩
      exact hnm (by rw [hh]; exact List.mem_cons_self _ _)
    rw [hg0, hg1]
    have hrel01 : grpGE g0 g1 := by
      rw [hg] at hsort
      exact List.rel_of_sorted_cons hsort g1 (List.mem_cons_self _ _)
    refine ⟨hmem1, ?_, ?_, ?_⟩
    · intro hkey
      apply hne01
      have e1 := (mem_pairsOf.mp hmem1).2
      have e0 := (mem_pairsOf.mp hmem0).2
      have : g0.2 = g1.2 := by rw [e0, e1, hkey]
      cases g0
      cases g1
      simp only at hkey this
      rw [hkey, this]
    · unfold grpGE at hrel01
      rcases hrel01 with h1 | h1
      · exact le_of_lt h1
      · exact le_of_eq h1.1.symm
    · intro p hp hpne
      have hpg : p ∈ groupsOf cards := hperm.mem_iff.mpr hp
      rw [hg] at hpg
      rcases List.mem_cons.mp hpg with h1 | h1
      · exact absurd h1 hpne
      · rcases List.mem_cons.mp h1 with h2 | h2
        · rw [h2]
          exact grpGE_refl _
        · rw [hg] at hsort
          exact List.rel_of_sorted_cons hsort.of_cons p h2

theorem ne_nil_of_len5 {cards : List Card} (h5 : cards.length = 5) : cards ≠ [] := by
  intro h
  rw [h] at h5
  simp at h5

theorem hasOfAKind_iff {cards : List Card} {k : Nat} (hk : 0 < k) :
    HasOfAKind cards k ↔ ∃ v, (valsOf cards).count v = k := by
  unfold HasOfAKind rankCount
  constructor
  · rintro ⟨v, hv, hc⟩
    exact ⟨v, by rw [valsOf_count]; exact hc⟩
  · rintro ⟨v, hc⟩
    rw [valsOf_count] at hc
    refine ⟨v, ?_, hc⟩
    rw [← List.count_pos_iff]
    omega

theorem g0_eq_of_hasOfAKind {cards : List Card} (h5 : cards.length = 5) {k : Nat}
    (hk : 3 ≤ k) (h : HasOfAKind cards k) : (g0Of cards).2 = k := by
  have hne := ne_nil_of_len5 h5
  have hg0 := g0_count hne
  rw [hasOfAKind_iff (by omega)] at h
  obtain ⟨v, hv⟩ := h
  have hvmem : v ∈ valsOf cards := by
    rw [← List.count_pos_iff]
    omega
  have hle := count_le_g0 hne hvmem
  by_cases heq : (g0Of cards).1 = v
  · rw [hg0.2, heq, hv]
  · have hsum := count_add_count_le (valsOf cards) heq
    rw [valsOf_length, h5] at hsum
    rw [hg0.2] at hle ⊢
    omega

theorem quad_iff {cards : List Card} (h5 : cards.length = 5) :
    (g0Of cards).2 = 4 ↔ HasOfAKind cards 4 := by
  have hne := ne_nil_of_len5 h5
  have hg0 := g0_count hne
  constructor
  · intro h
    rw [hasOfAKind_iff (by omega)]
    exact ⟨(g0Of cards).1, by rw [← hg0.2, h]⟩
  · exact g0_eq_of_hasOfAKind h5 (by omega)

theorem trips_iff {cards : List Card} (h5 : cards.length = 5) :
    (g0Of cards).2 = 3 ↔ HasOfAKind cards 3 := by
  have hne := ne_nil_of_len5 h5
  have hg0 := g0_count hne
  constructor
  · intro h
    rw [hasOfAKind_iff (by omega)]
    exact ⟨(g0Of cards).1, by rw [← hg0.2, h]⟩
  · exact g0_eq_of_hasOfAKind h5 (by omega)

theorem fullhouse_iff {cards : List Card} (h5 : cards.length = 5) :
    ((g0Of cards).2 = 3 ∧ 1 < (groupsOf cards).length ∧ 2 ≤ (g1Of cards).2) ↔
      (HasOfAKind cards 3 ∧ HasOfAKind cards 2) := by
  have hne := ne_nil_of_len5 h5
  have hg0 := g0_count hne
  constructor
  · rintro ⟨h3, hlen, hg12⟩
    have hg1 := g1_spec hlen
    have e1 := (mem_pairsOf.mp hg1.1).2
    have hsum := count_add_count_le (valsOf cards) hg1.2.1
    rw [valsOf_length, h5] at hsum
    refine ⟨(trips_iff h5).mp h3, ?_⟩
    rw [hasOfAKind_iff (by omega)]
    refine ⟨(g1Of cards).1, ?_⟩
    rw [hg0.2] at h3
    omega
  · rintro ⟨h3, h2⟩
    have hg02 := g0_eq_of_hasOfAKind h5 (by omega) h3
    rw [hasOfAKind_iff (by omega)] at h2
    obtain ⟨w, hw⟩ := h2
    have hwmem : w ∈ valsOf cards := by
      rw [← List.count_pos_iff]
      omega
    have hwne : w ≠ (g0Of cards).1 := by
      intro hh
      rw [hh] at hw
      rw [← hg0.2, hg02] at hw
      omega
    have hpw : ((w, (valsOf cards).count w) : Nat × Nat) ∈ pairsOf cards :=
      mem_pairsOf.mpr ⟨hwmem, rfl⟩
    have hpne : ((w, (valsOf cards).count w) : Nat × Nat) ≠ g0Of cards := by
      intro hh
      exact hwne (congrArg Prod.fst hh)
    have hlen : 1 < (groupsOf cards).length := by
      rw [(groupsOf_perm cards).length_eq]
      exact two_mem_length hpw (g0_spec hne).1 hpne
    have hg1 := g1_spec hlen
    refine ⟨hg02, hlen, ?_⟩
    have hrel := hg1.2.2.2 _ hpw hpne
    have hrel2 : (valsOf cards).count w < (g1Of cards).2 ∨
        ((g1Of cards).2 = (valsOf cards).count w ∧ w ≤ (g1Of cards).1) := hrel
    omega

theorem twopair_iff {cards : List Card} (h5 : cards.length = 5) :
    ((g0Of cards).2 = 2 ∧ 1 < (groupsOf cards).length ∧ (g1Of cards).2 = 2) ↔
      SpecTwoPair cards := by
  have hne := ne_nil_of_len5 h5
  have hg0 := g0_count hne
  constructor
  · rintro ⟨h2, hlen, hg12⟩
    have hg1 := g1_spec hlen
    have e1 := (mem_pairsOf.mp hg1.1).2
    have hm1 := (mem_pairsOf.mp hg1.1).1
    refine ⟨(g0Of cards).1, mem_valsOf.mp hg0.1, (g1Of cards).1, mem_valsOf.mp hm1,
      fun hh => hg1.2.1 hh.symm, ?_, ?_⟩
    · unfold rankCount
      rw [← valsOf_count, ← hg0.2, h2]
    · unfold rankCount
      rw [← valsOf_count, ← e1, hg12]
  · rintro ⟨v, hv, w, hw, hvw, hcv, hcw⟩
    unfold rankCount at hcv hcw
    rw [← valsOf_count] at hcv hcw
    rw [← mem_valsOf] at hv hw
    have hg02 : (g0Of cards).2 = 2 := by
      have hle := count_le_g0 hne hv
      by_cases he1 : (g0Of cards).1 = v
      · rw [hg0.2, he1, hcv]
      · by_cases he2 : (g0Of cards).1 = w
        · rw [hg0.2, he2, hcw]
        · have h3 := count3_le (valsOf cards) he1 he2 hvw
          rw [valsOf_length, h5] at h3
          rw [hg0.2] at hle ⊢
          omega
    have hpv : ((v, (valsOf cards).count v) : Nat × Nat) ∈ pairsOf cards :=
      mem_pairsOf.mpr ⟨hv, rfl⟩
    have hpw : ((w, (valsOf cards).count w) : Nat × Nat) ∈ pairsOf cards :=
      mem_pairsOf.mpr ⟨hw, rfl⟩
    have hpvw : ((v, (valsOf cards).count v) : Nat × Nat) ≠
        ((w, (valsOf cards).count w) : Nat × Nat) := by
      intro hh
      exact hvw (congrArg Prod.fst hh)
    have hlen : 1 < (groupsOf cards).length := by
      rw [(groupsOf_perm cards).length_eq]
      exact two_mem_length hpv hpw hpvw
    have hg1 := g1_spec hlen
    refine ⟨hg02, hlen, ?_⟩
    have hub : (g1Of cards).2 ≤ 2 := by
      rw [← hg02]
      exact hg1.2.2.1
    by_cases he1 : (g0Of cards).1 = v
    · have hpne : ((w, (valsOf cards).count w) : Nat × Nat) ≠ g0Of cards := by
        intro hh
        apply hvw
        rw [← he1, ← congrArg Prod.fst hh]
      have hrel := hg1.2.2.2 _ hpw hpne
      have hrel2 : (valsOf cards).count w < (g1Of cards).2 ∨
          ((g1Of cards).2 = (valsOf cards).count w ∧ w ≤ (g1Of cards).1) := hrel
      omega
    · have hpne : ((v, (valsOf cards).count v) : Nat × Nat) ≠ g0Of cards := by
        intro hh
        exact he1 (congrArg Prod.fst hh).symm
      have hrel := hg1.2.2.2 _ hpv hpne
      have hrel2 : (valsOf cards).count v < (g1Of cards).2 ∨
          ((g1Of cards).2 = (valsOf cards).count v ∧ v ≤ (g1Of cards).1) := hrel
      omega

theorem pair_iff {cards : List Card} (h5 : cards.length = 5)
    (hn4 : ¬HasOfAKind cards 4) (hn3 : ¬HasOfAKind cards 3) :
    (g0Of cards).2 = 2 ↔ HasOfAKind cards 2 := by
  have hne := ne_nil_of_len5 h5
  have hg0 := g0_count hne
  constructor
  · intro h
    rw [hasOfAKind_iff (by omega)]
    exact ⟨(g0Of cards).1, by rw [← hg0.2, h]⟩
  · intro h
    rw [hasOfAKind_iff (by omega)] at h
    obtain ⟨v, hv⟩ := h
    have hvmem : v ∈ valsOf cards := by
      rw [← List.count_pos_iff]
      omega
    have hle := count_le_g0 hne hvmem
    have hub : (g0Of cards).2 ≤ 5 := by
      rw [hg0.2]
      calc (valsOf cards).count (g0Of cards).1 ≤ (valsOf cards).length :=
            List.count_le_length _ _
        _ = 5 := by rw [valsOf_length, h5]
    have hn3b : (g0Of cards).2 ≠ 3 := by
      intro hh
      exact hn3 ((hasOfAKind_iff (by omega)).mpr
        ⟨(g0Of cards).1, by rw [← hg0.2, hh]⟩)
    have hn4b : (g0Of cards).2 ≠ 4 := by
      intro hh
      exact hn4 ((hasOfAKind_iff (by omega)).mpr
        ⟨(g0Of cards).1, by rw [← hg0.2, hh]⟩)
    have hn5b : (g0Of cards).2 ≠ 5 := by
      intro hh
      have hcl : (valsOf cards).count (g0Of cards).1 = (valsOf cards).length := by
        rw [← hg0.2, hh, valsOf_length, h5]
      have hallv := List.count_eq_length.mp hcl
      have hgv := hallv v hvmem
      rw [← hgv] at hv
      rw [← hg0.2] at hv
      omega
    omega

theorem dedup_length_one_iff {l : List Nat} (h : l ≠ []) :
    l.dedup.length = 1 ↔ ∀ x ∈ l, ∀ y ∈ l, x = y := by
  constructor
  · intro h1 x hx y hy
    obtain ⟨a, ha⟩ := List.length_eq_one.mp h1
    have e1 : x = a := by
      have hm := List.mem_dedup.mpr hx
      rw [ha] at hm
      simpa using hm
    have e2 : y = a := by
      have hm := List.mem_dedup.mpr hy
      rw [ha] at hm
      simpa using hm
    rw [e1, e2]
  · intro hall
    have hdne : l.dedup ≠ [] := fun hh => h ((List.dedup_eq_nil l).mp hh)
    obtain ⟨a, t, hat⟩ := List.exists_cons_of_ne_nil hdne
    cases t with
    | nil => rw [hat]; rfl
    | cons b t2 =>
      exfalso
      have hnd := List.nodup_dedup l
      rw [hat] at hnd
      have hab : a ≠ b := by
        rcases List.nodup_cons.mp hnd with ⟨hnm, _⟩
        intro hh
        exact hnm (by rw [hh]; exact List.mem_cons_self _ _)
      have ham : a ∈ l := List.mem_dedup.mp (by rw [hat]; exact List.mem_cons_self _ _)
      have hbm : b ∈ l := List.mem_dedup.mp
        (by rw [hat]; exact List.mem_cons_of_mem _ (List.mem_cons_self _ _))
      exact hab (hall a ham b hbm)

theorem flush_iff {cards : List Card} (h : cards ≠ []) :
    isFlushOf cards ↔ SpecFlush cards := by
  unfold isFlushOf SpecFlush
  have hsne : suitsOf cards ≠ [] := by
    unfold suitsOf
    simpa using h
  rw [dedup_length_one_iff hsne]
  unfold suitsOf
  constructor
  · intro hall c1 h1 c2 h2
    exact hall c1.2 (List.mem_map_of_mem _ h1) c2.2 (List.mem_map_of_mem _ h2)
  · intro hall x hx y hy
    obtain ⟨c1, hc1, rfl⟩ := List.mem_map.mp hx
    obtain ⟨c2, hc2, rfl⟩ := List.mem_map.mp hy
    exact hall c1 hc1 c2 hc2

theorem uniqueOf_perm (cards : List Card) :
    List.Perm (uniqueOf cards) (valsOf cards).dedup :=
  List.perm_insertionSort _ _

theorem uniqueOf_sorted (cards : List Card) :
    List.Sorted (fun a b => b ≤ a) (uniqueOf cards) :=
  List.sorted_insertionSort _ _

theorem mem_uniqueOf {cards : List Card} {v : Nat} :
    v ∈ uniqueOf cards ↔ v ∈ valsOf cards := by
  rw [(uniqueOf_perm cards).mem_iff]
  exact List.mem_dedup

theorem nodup_iff_unique_len {cards : List Card} (h5 : cards.length = 5) :
    (rankVals cards).Nodup ↔ (uniqueOf cards).length = 5 := by
  have e1 : (uniqueOf cards).length = (valsOf cards).dedup.length :=
    (uniqueOf_perm cards).length_eq
  constructor
  · intro hnd
    have hv : (valsOf cards).Nodup := (valsOf_perm cards).symm.nodup hnd
    rw [e1, List.dedup_eq_self.mpr hv, valsOf_length, h5]
  · intro hlen
    rw [e1] at hlen
    have hsub := List.dedup_sublist (valsOf cards)
    have heq : (valsOf cards).dedup = valsOf cards :=
      hsub.eq_of_length (by rw [hlen, valsOf_length, h5])
    have hnd : (valsOf cards).Nodup := by
      rw [← heq]
      exact List.nodup_dedup _
    exact (valsOf_perm cards).nodup hnd

theorem uniqueOf_len_le {cards : List Card} (h5 : cards.length = 5) :
    (uniqueOf cards).length ≤ 5 := by
  rw [(uniqueOf_perm cards).length_eq]
  calc (valsOf cards).dedup.length ≤ (valsOf cards).length :=
        (List.dedup_sublist _).length_le
    _ = 5 := by rw [valsOf_length, h5]

theorem exists_five {l : List Nat} (h : l.length = 5) :
    ∃ a b c d e, l = [a, b, c, d, e] := by
  cases l with
  | nil => simp at h
  | cons a l1 =>
    cases l1 with
    | nil => simp at h
    | cons b l2 =>
      cases l2 with
      | nil => simp at h
      | cons c l3 =>
        cases l3 with
        | nil => simp at h
        | cons d l4 =>
          cases l4 with
          | nil => simp at h
          | cons e l5 =>
            cases l5 with
            | nil => exact ⟨a, b, c, d, e, rfl⟩
            | cons f l6 =>
              simp only [List.length_cons] at h
              omega

theorem straight_window_five (a b c d e : Nat) :
    straight_window [a, b, c, d, e] =
      if (a : Int) - (e : Int) = 4 then some a else none := by
  by_cases h : (a : Int) - (e : Int) = 4
  · rw [if_pos h]
    unfold straight_window
    rw [if_pos h]
  · rw [if_neg h]
    unfold straight_window
    rw [if_neg h]
    rfl

theorem sorted_five_bounds {a b c d e : Nat}
    (hs : List.Sorted (fun x y => y ≤ x) [a, b, c, d, e]) :
    (∀ x ∈ [a, b, c, d, e], x ≤ a) ∧ (∀ x ∈ [a, b, c, d, e], e ≤ x) := by
  have h1 := List.rel_of_sorted_cons hs
  have hs2 := hs.of_cons
  have h2 := List.rel_of_sorted_cons hs2
  have hs3 := hs2.of_cons
  have h3 := List.rel_of_sorted_cons hs3
  have hs4 := hs3.of_cons
  have h4 := List.rel_of_sorted_cons hs4
  constructor <;> intro x hx <;>
    simp only [List.mem_cons, List.not_mem_nil, or_false] at hx
  · rcases hx with rfl | rfl | rfl | rfl | rfl
    · omega
    · exact h1 _ (by simp)
    · exact h1 _ (by simp)
    · exact h1 _ (by simp)
    · exact h1 _ (by simp)
  · rcases hx with rfl | rfl | rfl | rfl | rfl
    · exact h1 _ (by simp)
    · exact h2 _ (by simp)
    · exact h3 _ (by simp)
    · exact h4 _ (by simp)
    · omega

theorem wheel_iff (cards : List Card) :
    ((([14, 5, 4, 3, 2] : List Nat).all (fun v => (valsOf cards).contains v)) = true) ↔
      (∀ x ∈ ([14, 5, 4, 3, 2] : List Nat), x ∈ rankVals cards) := by
  simp [List.all_eq_true, List.contains, List.elem_iff, mem_valsOf]

theorem straightTop_iff {cards : List Card} (h5 : cards.length = 5) :
    ((straightTopOf cards).isSome = true) ↔ SpecStraight cards := by
  unfold straightTopOf SpecStraight
  by_cases hnd : (rankVals cards).Nodup
  · have hul : (uniqueOf cards).length = 5 := (nodup_iff_unique_len h5).mp hnd
    rw [if_pos (by omega : 5 ≤ (uniqueOf cards).length)]
    obtain ⟨a, b, c, d, e, hu⟩ := exists_five hul
    have hsor := uniqueOf_sorted cards
    rw [hu] at hsor
    have hbounds := sorted_five_bounds hsor
    have hrne : rankVals cards ≠ [] := by
      intro hh
      have hl := rankVals_length cards
      rw [hh, h5] at hl
      simp at hl
    have hmax : listMax (rankVals cards) = a := by
      apply le_antisymm
      · have hm := listMax_mem hrne
        have hmm : listMax (rankVals cards) ∈ uniqueOf cards := by
          rw [mem_uniqueOf, mem_valsOf]
          exact hm
        rw [hu] at hmm
        exact hbounds.1 _ hmm
      · apply le_listMax
        rw [← mem_valsOf, ← mem_uniqueOf, hu]
        simp
    have hmin : listMin (rankVals cards) = e := by
      apply le_antisymm
      · apply listMin_le
        rw [← mem_valsOf, ← mem_uniqueOf, hu]
        simp
      · have hm := listMin_mem hrne
        have hmm : listMin (rankVals cards) ∈ uniqueOf cards := by
          rw [mem_uniqueOf, mem_valsOf]
          exact hm
        rw [hu] at hmm
        exact hbounds.2 _ hmm
    have hsw : straight_window (uniqueOf cards) =
        (if (a : Int) - (e : Int) = 4 then some a else none) := by
      rw [hu, straight_window_five]
    rw [hmax, hmin]
    by_cases hwin : (a : Int) - (e : Int) = 4
    · rw [if_pos hwin] at hsw
      rw [hsw]
      simp only [Option.isSome_some, true_iff]
      exact ⟨hnd, Or.inl hwin⟩
    · rw [if_neg hwin] at hsw
      rw [hsw]
      constructor
      · intro hsome
        refine ⟨hnd, Or.inr ?_⟩
        by_cases hwheel :
            (([14, 5, 4, 3, 2] : List Nat).all (fun v => (valsOf cards).contains v)) = true
        · exact (wheel_iff cards).mp hwheel
        · rw [if_neg hwheel] at hsome
          simp at hsome
      · rintro ⟨-, hsp | hwheel⟩
        · exact absurd hsp hwin
        · rw [if_pos ((wheel_iff cards).mpr hwheel)]
          simp
  · have hul : (uniqueOf cards).length < 5 := by
      have hle := uniqueOf_len_le h5
      rcases Nat.lt_or_ge (uniqueOf cards).length 5 with hlt | hge
      · exact hlt
      · exact absurd ((nodup_iff_unique_len h5).mpr (by omega)) hnd
    rw [if_neg (by omega)]
    simp only [Option.isSome_none, Bool.false_eq_true, false_iff]
    intro hcon
    exact hnd hcon.1

/-- The category index computed by `poker_score_5` agrees with the spec's
classification on every 5-card hand. -/
theorem score_fst_eq (cards : List Card) (h5 : cards.length = 5) :
    (poker_score_5 cards).1 = specCategory cards := by
  have hne := ne_nil_of_len5 h5
  have hS := straightTop_iff h5
  have hF := flush_iff hne
  have hQ := quad_iff h5
  have hT3 := trips_iff h5
  have hFH := fullhouse_iff h5
  have hTP := twopair_iff h5
  unfold poker_score_5 specCategory
  by_cases h1 : SpecStraight cards ∧ SpecFlush cards
  · rw [if_pos (show ((straightTopOf cards).isSome = true) ∧ isFlushOf cards from
      ⟨hS.mpr h1.1, hF.mpr h1.2⟩), if_pos h1]
  · rw [if_neg (fun hc => h1 ⟨hS.mp hc.1, hF.mp hc.2⟩), if_neg h1]
    by_cases h2 : HasOfAKind cards 4
    · rw [if_pos (hQ.mpr h2), if_pos h2]
    · rw [if_neg (fun hc => h2 (hQ.mp hc)), if_neg h2]
      by_cases h3 : HasOfAKind cards 3 ∧ HasOfAKind cards 2
      · rw [if_pos (hFH.mpr h3), if_pos h3]
      · rw [if_neg (fun hc => h3 (hFH.mp hc)), if_neg h3]
        by_cases h4 : SpecFlush cards
        · rw [if_pos (hF.mpr h4), if_pos h4]
        · rw [if_neg (fun hc => h4 (hF.mp hc)), if_neg h4]
          by_cases h5s : SpecStraight cards
          · rw [if_pos (hS.mpr h5s), if_pos h5s]
          · rw [if_neg (fun hc => h5s (hS.mp hc)), if_neg h5s]
            by_cases h6 : HasOfAKind cards 3
            · rw [if_pos (hT3.mpr h6), if_pos h6]
            · rw [if_neg (fun hc => h6 (hT3.mp hc)), if_neg h6]
              by_cases h7 : SpecTwoPair cards
              · rw [if_pos (hTP.mpr h7), if_pos h7]
              · rw [if_neg (fun hc => h7 (hTP.mp hc)), if_neg h7]
                have hP := pair_iff h5 h2 h6
                by_cases h8 : HasOfAKind cards 2
                · rw [if_pos (hP.mpr h8), if_pos h8]
                · rw [if_neg (fun hc => h8 (hP.mp hc)), if_neg h8]

/-- C7: the 5-card evaluator orders hands consistently with the spec's
category ranking — for any two 5-card hands whose spec categories differ,
the hand in the higher category scores strictly higher under the code's
tuple order — and the wheel (ace, 2, 3, 4, 5, mixed suits) is scored as a
straight with top value 5, strictly below a six-high straight. -/
theorem c7_hand_evaluator_order :
    (∀ cards1 cards2 : List Card, cards1.length = 5 → cards2.length = 5 →
        specCategory cards1 < specCategory cards2 →
        scoreLtB (poker_score_5 cards1) (poker_score_5 cards2) = true) ∧
    poker_score_5 [(Rank.rA, 0), (Rank.r2, 1), (Rank.r3, 0), (Rank.r4, 2), (Rank.r5, 3)]
        = (4, [5]) ∧
    poker_score_5 [(Rank.r6, 1), (Rank.r2, 0), (Rank.r3, 1), (Rank.r4, 0), (Rank.r5, 2)]
        = (4, [6]) ∧
    scoreLtB (4, [5]) (4, [6]) = true := by
  refine ⟨?_, by decide, by decide, by decide⟩
  intro cards1 cards2 hl1 hl2 hlt
  unfold scoreLtB
  rw [score_fst_eq cards1 hl1, score_fst_eq cards2 hl2, if_pos hlt]

/-- Witness for C7: a six-high straight (spec category 4) scores strictly
below a jack-high flush (spec category 5). -/
theorem c7_hand_evaluator_order_witness :
    scoreLtB
      (poker_score_5 [(Rank.r6, 1), (Rank.r2, 0), (Rank.r3, 1), (Rank.r4, 0), (Rank.r5, 2)])
      (poker_score_5 [(Rank.r2, 0), (Rank.r5, 0), (Rank.r7, 0), (Rank.r9, 0), (Rank.rJ, 0)])
      = true :=
  c7_hand_evaluator_order.1 _ _ (by decide) (by decide) (by decide)

end EconomyBot
